import Mathlib

/-!
Shallow embedding of `src/PipelineUtil.py` and proofs of the properties its
design document states.

Modelling conventions:
* A Python `dict` is an insertion-ordered association list with pairwise
  distinct keys.  Assignment to an existing key keeps its position,
  assignment to a fresh key appends at the end, and deletion preserves the
  relative order of the remaining entries — the semantics of `dict`.
* A server profile (one entry of the `servers` table of the TOML file) has a
  mandatory `url`, an optional `token` and an optional `active` key.
* Remote sequences (`gitlab.projects.list(iterator=True)` and
  `project.pipelines.list(iterator=True)`) are modelled by the list of
  elements the iterator would yield.  `retrieve_pipelines` guards each
  element against `None`, so its input elements are `Option Pipeline`.
* Printing is ignored except where a stated property is about it:
  `list_servers` returns the list of lines it would print, `Option`-valued
  because the column-width computation (Python `max` over a possibly empty
  list) is partial.
* Python's `sorted` is a stable sort; it is modelled by `List.insertionSort`,
  which is also stable, over the same key order.
-/

namespace PipelineUtil

/-- One entry of the `servers` table: `{'url': ..., 'token'?: ..., 'active'?: ...}`. -/
structure Profile where
  url : String
  token : Option String
  active : Option Bool
deriving Repr, DecidableEq

/-- The `servers` dict, as an insertion-ordered association list. -/
abbrev Servers := List (String × Profile)

/-- Truthiness test `'active' in values and values['active']` used by the source. -/
def isActive (p : Profile) : Bool := p.active == some true

/-- Embeds `ExternalConfig.__server`: dict lookup returning `None` when absent. -/
def lookupServer (servers : Servers) (a : String) : Option Profile :=
  match servers.find? (fun e => e.1 == a) with
  | some e => some e.2
  | none => none

/-- Membership test `args.alias in self.__servers().keys()`. -/
def hasKey (servers : Servers) (a : String) : Bool :=
  servers.any (fun e => e.1 == a)

/-- Dict assignment `self.__servers()[alias] = cfg`: replace in place when the
key exists, append otherwise. -/
def setServer (servers : Servers) (a : String) (p : Profile) : Servers :=
  if hasKey servers a then
    servers.map (fun e => if e.1 == a then (a, p) else e)
  else
    servers ++ [(a, p)]

/-- Dict deletion `del self.__servers()[alias]`. -/
def eraseServer (servers : Servers) (a : String) : Servers :=
  servers.filter (fun e => !(e.1 == a))

/-- The in-memory state of `ExternalConfig`: the loaded registry and the
dirty flag `is_changed`. -/
structure ConfigState where
  servers : Servers
  is_changed : Bool
deriving Repr, DecidableEq

/-- Embeds `ExternalConfig.__create_server_config`: the token key is stored
only when `args.token` is truthy (neither `None` nor the empty string). -/
def __create_server_config (url : String) (token : Option String) : Profile :=
  { url := url
    token := match token with
      | some t => if t = "" then none else some t
      | none => none
    active := some true }

/-- Embeds `ExternalConfig.switch_server`: no-op on an unknown alias,
otherwise every profile's `active` is set to `server == alias` and the state
is marked dirty. -/
def switch_server (s : ConfigState) (a : String) : ConfigState :=
  match lookupServer s.servers a with
  | none => s
  | some _ =>
    { servers := s.servers.map (fun e => (e.1, { e.2 with active := some (e.1 == a) }))
      is_changed := true }

/-- Embeds `ExternalConfig.add_server`: store the freshly created profile
under the alias, mark dirty, then `switch_server` to it. -/
def add_server (s : ConfigState) (a url : String) (token : Option String) : ConfigState :=
  switch_server
    { servers := setServer s.servers a (__create_server_config url token), is_changed := true } a

/-- The invariant-repair step of `ExternalConfig.remove_server`: if no
profile remains active and at least one remains, set `active = True` on the
profile stored at the first key of the registry
(`next_active = list(self.__servers())[0]`). -/
def repairActive (servers : Servers) : Servers :=
  let any_active := servers.any (fun e => isActive e.2)
  let any_remaining := decide (0 < servers.length)
  if !any_active && any_remaining then
    match servers.head? with
    | some e0 =>
      servers.map (fun e => if e.1 == e0.1 then (e.1, { e.2 with active := some true }) else e)
    | none => servers
  else servers

/-- Embeds `ExternalConfig.remove_server`: no-op on an unknown alias;
otherwise delete the entry, mark dirty, and run the invariant repair. -/
def remove_server (s : ConfigState) (a : String) : ConfigState :=
  match lookupServer s.servers a with
  | none => s
  | some _ =>
    { servers := repairActive (eraseServer s.servers a), is_changed := true }

/-- Embeds `ExternalConfig.update`: the registry written back to the Profile
Store file, or `none` when `is_changed` is not set and no write happens. -/
def update (s : ConfigState) : Option Servers :=
  if s.is_changed then some s.servers else none

/-- Result of resolving the active server: either a stored profile or the
environment fallback dict `{'url': ..., 'token': ...}`. -/
inductive Resolved where
  | profile (p : Profile)
  | fallback (url token : Option String)
deriving Repr, DecidableEq

/-- Reading `config['url']` from the resolved dict (`None` possible only in
the fallback dict). -/
def Resolved.url : Resolved → Option String
  | .profile p => some p.url
  | .fallback u _ => u

/-- Reading `config['token'] if 'token' in config else None` from the
resolved dict. -/
def Resolved.token : Resolved → Option String
  | .profile p => p.token
  | .fallback _ t => t

/-- Embeds `ExternalConfig.__active_fallback`; `env` is the process
environment (`os.environ.get`). -/
def __active_fallback (env : String → Option String) : Resolved :=
  .fallback (env "PIPELINEUTIL_URL") (env "PIPELINEUTIL_TOKEN")

/-- Embeds `ExternalConfig.active_server`: the first profile whose `active`
value is truthy, else the environment fallback. -/
def active_server (s : ConfigState) (env : String → Option String) : Resolved :=
  match s.servers.find? (fun e => isActive e.2) with
  | some e => .profile e.2
  | none => __active_fallback env

/-- Lexicographic order on character lists, by code point — the order Python
uses to compare strings. -/
def charsLE : List Char → List Char → Bool
  | [], _ => true
  | _ :: _, [] => false
  | c :: cs, d :: ds => if c = d then charsLE cs ds else decide (c < d)

/-- Python string comparison `s <= t`. -/
def strLE (s t : String) : Bool :=
  charsLE s.toList t.toList

/-- The propositional form of `strLE`, used as the sort order. -/
def stringLE (s t : String) : Prop :=
  strLE s t = true

instance : DecidableRel stringLE := fun s t =>
  inferInstanceAs (Decidable (strLE s t = true))

/-- Python `f"{s:<{n}s}"`: pad on the right with spaces to width `n`. -/
def padRight (s : String) (n : Nat) : String :=
  s ++ String.mk (List.replicate (n - s.length) ' ')

/-- Python `max` over a list of numbers: undefined (`ValueError`) on `[]`. -/
def maxOfList : List Nat → Option Nat
  | [] => none
  | n :: rest => some (rest.foldl Nat.max n)

/-- The `OKGREEN` terminal escape. -/
def escOKGREEN : String := String.mk [Char.ofNat 27, '[', '9', '2', 'm']

/-- The `ENDC` terminal escape. -/
def escENDC : String := String.mk [Char.ofNat 27, '[', '0', 'm']

/-- Embeds `Painter.colored` (without the optional extra modifier). -/
def colored (text : String) (color : String) : String :=
  color ++ text ++ escENDC

/-- The `display_token` column of `list_servers`: the token masked by
asterisks, or the explicit no-token marker. -/
def displayToken (server_config : Profile) : String :=
  match server_config.token with
  | some t => String.mk (List.replicate t.length '*')
  | none => "<no token>"

/-- One output line of `list_servers` for the given alias. -/
def serverLine (max_len_alias max_len_url : Nat) (a : String) (server_config : Profile) : String :=
  let is_active := server_config.active.getD false
  let alias_text := padRight a max_len_alias
  let display_active := if is_active then "*" else " "
  let display_alias := if is_active then colored alias_text escOKGREEN else alias_text
  let display_url := padRight server_config.url max_len_url
  display_active ++ " " ++ display_alias ++ " " ++ display_url ++ " " ++ displayToken server_config

/-- The body of `list_servers` past the emptiness guard: the column widths
(partial `max` computations) and the per-alias lines in ascending alias
order. -/
def listBody (servers : Servers) : Option (List String) := do
  let max_len_alias ← maxOfList (servers.map (fun e => e.1.length))
  let max_len_url ← maxOfList (servers.map (fun e => e.2.url.length))
  let aliases_ordered := (servers.map (fun e => e.1)).insertionSort stringLE
  some (aliases_ordered.filterMap
    (fun a => (lookupServer servers a).map (serverLine max_len_alias max_len_url a)))

/-- Embeds `ExternalConfig.list_servers`: the printed lines, with the early
return on an empty registry. -/
def list_servers (servers : Servers) : Option (List String) :=
  if servers.length = 0 then some [] else listBody servers

/-- Embeds the `RunConfig` dataclass. -/
structure RunConfig where
  url : Option String
  token : Option String
  filter_project : Option String
  filter_pipelines : Option String
  limit_projects : Nat
  limit_pipelines : Nat
  limit_pipelines_depth : Nat
  failed_show_link : Bool
  failed_hide_jobs_all : Bool
  failed_hide_jobs_okay : Bool
deriving Repr, DecidableEq

/-- The parsed arguments of the `run` subcommand. -/
structure RunArgs where
  projects : Option String
  references : Option String
  limit_projects : Nat
  limit_pipelines : Nat
  limit_pipelines_search_depth : Nat
  verbose : Bool
deriving Repr, DecidableEq

/-- Embeds `convert`: builds the `RunConfig` from the resolved server record
and the parsed arguments; `verbose` flips the three experimental flags. -/
def convert (config : Resolved) (args : RunArgs) : RunConfig :=
  let c : RunConfig :=
    { url := config.url
      token := config.token
      filter_project := args.projects
      filter_pipelines := args.references
      limit_projects := args.limit_projects
      limit_pipelines := args.limit_pipelines
      limit_pipelines_depth := args.limit_pipelines_search_depth
      failed_show_link := false
      failed_hide_jobs_all := true
      failed_hide_jobs_okay := true }
  if args.verbose then
    { c with failed_hide_jobs_all := false, failed_hide_jobs_okay := false,
             failed_show_link := true }
  else c

/-- A remote pipeline, reduced to the field the scan inspects. -/
structure Pipeline where
  ref : String
deriving Repr, DecidableEq

deriving instance DecidableEq for Except

/-- A remote project: its namespaced display name and the outcome of
`project.pipelines.list(iterator=True)` — either the yielded sequence or a
`GitlabListError`. -/
structure Project where
  name_with_namespace : String
  pipelines : Except String (List (Option Pipeline))
deriving Repr, DecidableEq

/-- The sort key order of `retrieve_projects`:
`key=lambda p: p.name_with_namespace`. -/
def projectLE (p q : Project) : Prop :=
  stringLE p.name_with_namespace q.name_with_namespace

instance : DecidableRel projectLE := fun p q =>
  inferInstanceAs (Decidable (stringLE p.name_with_namespace q.name_with_namespace))

/-- Embeds `retrieve_projects`: `itertools.islice` takes the first
`limit_projects` elements of the remote iterator, and the taken set is then
sorted (stably) by namespaced name. -/
def retrieve_projects (remote : List Project) (config : RunConfig) : List Project :=
  (remote.take config.limit_projects).insertionSort projectLE

/-- Byte-wise prefix test on character lists. -/
def charsStart : List Char → List Char → Bool
  | [], _ => true
  | _ :: _, [] => false
  | c :: cs, d :: ds => c == d && charsStart cs ds

/-- Substring occurrence on character lists. -/
def charsWithin (needle : List Char) : List Char → Bool
  | [] => needle.isEmpty
  | d :: ds => charsStart needle (d :: ds) || charsWithin needle ds

/-- Python `needle in hay` on strings. -/
def strWithin (needle hay : String) : Bool :=
  charsWithin needle.toList hay.toList

/-- The ref filter test of `retrieve_pipelines`:
`not config.filter_pipelines or config.filter_pipelines in pipeline.ref`. -/
def matchesFilter (filt : Option String) (r : String) : Bool :=
  match filt with
  | none => true
  | some f => f.isEmpty || strWithin f r

/-- The scan loop of `retrieve_pipelines`.  The first `Nat` is the remaining
scan depth (`idx >= limit_pipelines_depth` breaks), the second is
`len(found)` so far (`len(found) >= limit_pipelines`, tested after a
possible append, breaks); a `none` element breaks as well. -/
def pipelineScan (filt : Option String) (limit : Nat) : Nat → Nat → List (Option Pipeline) → List Pipeline
  | _, _, [] => []
  | 0, _, _ :: _ => []
  | _ + 1, _, none :: _ => []
  | d + 1, cnt, some p :: rest =>
    if matchesFilter filt p.ref then
      if limit ≤ cnt + 1 then [p]
      else p :: pipelineScan filt limit d (cnt + 1) rest
    else if limit ≤ cnt then []
    else pipelineScan filt limit d cnt rest

/-- Embeds `retrieve_pipelines`: a failing remote listing is caught and
yields `[]`; otherwise the bounded scan runs over the yielded sequence. -/
def retrieve_pipelines (project : Project) (config : RunConfig) : List Pipeline :=
  match project.pipelines with
  | .error _ => []
  | .ok seq => pipelineScan config.filter_pipelines config.limit_pipelines
      config.limit_pipelines_depth 0 seq

/-- The pipeline-level part of `main`'s traversal: for each project in
order, the pipelines retrieved for it. -/
def mainPipelines (config : RunConfig) : List Project → List (String × List Pipeline)
  | [] => []
  | p :: rest =>
    (p.name_with_namespace, retrieve_pipelines p config) :: mainPipelines config rest

/-- A registry mutation of the CLI surface. -/
inductive RegOp where
  | add (a url : String) (token : Option String)
  | switch (a : String)
  | remove (a : String)
deriving Repr, DecidableEq

/-- Dispatch of one mutating command to `ExternalConfig`. -/
def applyOp (s : ConfigState) : RegOp → ConfigState
  | .add a url token => add_server s a url token
  | .switch a => switch_server s a
  | .remove a => remove_server s a

/-- The state of a fresh `ExternalConfig` over an empty registry. -/
def initialState : ConfigState :=
  { servers := [], is_changed := false }

/-- The state after a finite sequence of mutating commands from the empty
registry. -/
def applyOps (ops : List RegOp) : ConfigState :=
  ops.foldl applyOp initialState

/-- Reachability of a registry state from the empty registry by add, switch
and remove operations. -/
def Reachable (s : ConfigState) : Prop :=
  ∃ ops : List RegOp, applyOps ops = s

/-- Number of profiles whose `active` value is truthy. -/
def activeCount (servers : Servers) : Nat :=
  servers.countP (fun e => isActive e.2)

/-- The keys of the registry in registry order. -/
def keysOf (servers : Servers) : List String :=
  servers.map (fun e => e.1)

/-- Modelled from the spec: project discovery described as "the first n
names in ascending namespaced-name order among however many projects the
remote service actually returns" — sort the whole remote output, then take
the first `n`.  Stated for comparison with `retrieve_projects`. -/
def specProjectDiscovery (remote : List Project) (n : Nat) : List Project :=
  (remote.insertionSort projectLE).take n

/-- The entries of the remote pipeline sequence the scan loop can ever
examine: at most `depth` of them, stopping at the first `none`. -/
def scannedEntries (depth : Nat) : List (Option Pipeline) → List Pipeline
  | [] => []
  | q :: rest =>
    match depth, q with
    | 0, _ => []
    | _ + 1, none => []
    | d + 1, some p => p :: scannedEntries d rest

/-! Order lemmas for the sort relations. -/

theorem charsLE_total (a b : List Char) : charsLE a b = true ∨ charsLE b a = true := by
  induction a generalizing b with
  | nil => exact Or.inl rfl
  | cons x xs ih =>
    cases b with
    | nil => exact Or.inr rfl
    | cons y ys =>
      by_cases hxy : x = y
      · subst hxy
        rcases ih ys with h | h
        · exact Or.inl (by simpa [charsLE] using h)
        · exact Or.inr (by simpa [charsLE] using h)
      · rcases lt_or_gt_of_ne hxy with h | h
        · exact Or.inl (by simp [charsLE, hxy, h])
        · exact Or.inr (by simp [charsLE, Ne.symm hxy, h])

theorem charsLE_trans (a b c : List Char) (hab : charsLE a b = true)
    (hbc : charsLE b c = true) : charsLE a c = true := by
  induction a generalizing b c with
  | nil => rfl
  | cons x xs ih =>
    cases b with
    | nil => simp [charsLE] at hab
    | cons y ys =>
      cases c with
      | nil => simp [charsLE] at hbc
      | cons z zs =>
        by_cases hxy : x = y
        · subst hxy
          by_cases hyz : x = z
          · subst hyz
            simp only [charsLE, if_pos rfl] at hab hbc ⊢
            exact ih ys zs hab hbc
          · simp only [charsLE, if_pos rfl, if_neg hyz] at hbc ⊢
            simpa [hyz] using hbc
        · by_cases hyz : y = z
          · subst hyz
            simp only [charsLE, if_neg hxy] at hab ⊢
            simpa [hxy] using hab
          · simp only [charsLE, if_neg hxy] at hab
            simp only [charsLE, if_neg hyz] at hbc
            have hxz : x < z := lt_trans (of_decide_eq_true hab) (of_decide_eq_true hbc)
            simp [charsLE, ne_of_lt hxz, hxz]

instance : IsTotal String stringLE :=
  ⟨fun s t => charsLE_total s.toList t.toList⟩

instance : IsTrans String stringLE :=
  ⟨fun s t u => charsLE_trans s.toList t.toList u.toList⟩

instance : IsTotal Project projectLE :=
  ⟨fun p q => charsLE_total p.name_with_namespace.toList q.name_with_namespace.toList⟩

instance : IsTrans Project projectLE :=
  ⟨fun p q r => charsLE_trans p.name_with_namespace.toList q.name_with_namespace.toList
    r.name_with_namespace.toList⟩

/-! Registry lemmas. -/

/-- The dirty-flag invariant on keys: a lambda keeping the first component
keeps the key list. -/
theorem keysOf_map_snd (servers : Servers) (g : String × Profile → Profile) :
    keysOf (servers.map (fun e => (e.1, g e))) = keysOf servers := by
  simp [keysOf, List.map_map]

theorem hasKey_setServer (servers : Servers) (a : String) (p : Profile) :
    hasKey (setServer servers a p) a = true := by
  unfold setServer
  by_cases h : hasKey servers a
  · rw [if_pos h]
    unfold hasKey at h ⊢
    rcases List.any_eq_true.mp h with ⟨e, he, heq⟩
    exact List.any_eq_true.mpr ⟨(a, p), List.mem_map.mpr ⟨e, he, by simp [heq]⟩, by simp⟩
  · rw [if_neg h]
    unfold hasKey
    exact List.any_eq_true.mpr ⟨(a, p), List.mem_append_right _ (List.mem_singleton.mpr rfl), by simp⟩

theorem lookupServer_eq_none_iff (servers : Servers) (a : String) :
    lookupServer servers a = none ↔ hasKey servers a = false := by
  unfold lookupServer hasKey
  cases h : servers.find? (fun e => e.1 == a) with
  | none =>
    simp only [true_iff]
    rw [List.any_eq_false]
    intro e he
    have := List.find?_eq_none.mp h e he
    simpa using this
  | some e =>
    simp only [reduceCtorEq, false_iff]
    have hmem := List.find?_some h
    have hin := List.mem_of_find?_eq_some h
    intro hall
    rw [List.any_eq_false] at hall
    exact hall e hin hmem

theorem keysOf_setServer_nodup (servers : Servers) (a : String) (p : Profile)
    (h : (keysOf servers).Nodup) : (keysOf (setServer servers a p)).Nodup := by
  unfold setServer
  by_cases hk : hasKey servers a
  · rw [if_pos hk]
    have : keysOf (servers.map (fun e => if e.1 == a then (a, p) else e)) = keysOf servers := by
      unfold keysOf
      rw [List.map_map]
      apply List.map_congr_left
      intro e _
      by_cases he : e.1 = a <;> simp [he]
    rwa [this]
  · rw [if_neg hk]
    unfold keysOf
    rw [List.map_append]
    apply List.Nodup.append h (by simp)
    intro x hx hx'
    simp only [List.map_cons, List.map_nil, List.mem_singleton] at hx'
    subst hx'
    unfold hasKey at hk
    rw [Bool.not_eq_true, List.any_eq_false] at hk
    rcases List.mem_map.mp hx with ⟨e, he, rfl⟩
    simpa using hk e he

theorem countP_key_le_one (servers : Servers) (a : String)
    (h : (keysOf servers).Nodup) : servers.countP (fun e => e.1 == a) ≤ 1 := by
  induction servers with
  | nil => simp
  | cons e rest ih =>
    simp only [keysOf, List.map_cons, List.nodup_cons] at h
    rw [List.countP_cons]
    by_cases he : e.1 = a
    · have hzero : rest.countP (fun e' => e'.1 == a) = 0 := by
        rw [List.countP_eq_zero]
        intro e' he'
        simp only [beq_iff_eq]
        intro hcontra
        exact h.1 (by rw [he, ← hcontra]; exact List.mem_map.mpr ⟨e', he', rfl⟩)
      simp [hzero, he]
    · simpa [he] using ih h.2

theorem countP_key_eq_one (servers : Servers) (a : String)
    (h : (keysOf servers).Nodup) (hmem : a ∈ keysOf servers) :
    servers.countP (fun e => e.1 == a) = 1 := by
  induction servers with
  | nil => simp [keysOf] at hmem
  | cons e rest ih =>
    simp only [keysOf, List.map_cons, List.nodup_cons] at h
    rw [List.countP_cons]
    by_cases he : e.1 = a
    · have hzero : rest.countP (fun e' => e'.1 == a) = 0 := by
        rw [List.countP_eq_zero]
        intro e' he'
        simp only [beq_iff_eq]
        intro hcontra
        exact h.1 (by rw [he, ← hcontra]; exact List.mem_map.mpr ⟨e', he', rfl⟩)
      simp [hzero, he]
    · simp only [keysOf, List.map_cons, List.mem_cons] at hmem
      rcases hmem with hmem | hmem
      · exact absurd hmem.symm he
      · simpa [he] using ih h.2 hmem

theorem activeCount_switchMap (servers : Servers) (a : String) :
    activeCount (servers.map (fun e => (e.1, { e.2 with active := some (e.1 == a) }))) =
      servers.countP (fun e => e.1 == a) := by
  unfold activeCount
  rw [List.countP_map]
  apply List.countP_congr
  intro e _
  simp [Function.comp_apply, isActive]

theorem switch_keysOf (s : ConfigState) (a : String) :
    keysOf (switch_server s a).servers = keysOf s.servers := by
  unfold switch_server
  cases hl : lookupServer s.servers a with
  | none => rfl
  | some p => exact keysOf_map_snd s.servers _

theorem switch_activeCount (s : ConfigState) (a : String) (p : Profile)
    (h : lookupServer s.servers a = some p) :
    activeCount (switch_server s a).servers = s.servers.countP (fun e => e.1 == a) := by
  simp only [switch_server, h]
  exact activeCount_switchMap s.servers a

theorem keysOf_promote (servers : Servers) (k : String) :
    keysOf (servers.map
      (fun e => if e.1 == k then (e.1, { e.2 with active := some true }) else e)) =
      keysOf servers := by
  unfold keysOf
  rw [List.map_map]
  apply List.map_congr_left
  intro e _
  by_cases he : e.1 = k <;> simp [he]

theorem activeCount_promote (servers : Servers) (k : String)
    (hall : ∀ e ∈ servers, isActive e.2 = false) :
    activeCount (servers.map
      (fun e => if e.1 == k then (e.1, { e.2 with active := some true }) else e)) =
      servers.countP (fun e => e.1 == k) := by
  unfold activeCount
  rw [List.countP_map]
  apply List.countP_congr
  intro e he
  by_cases hek : e.1 = k
  · simp [Function.comp_apply, hek, isActive]
  · simp [Function.comp_apply, hek, hall e he]

theorem keysOf_repairActive (servers : Servers) :
    keysOf (repairActive servers) = keysOf servers := by
  unfold repairActive
  by_cases hc : (!servers.any fun e => isActive e.2) && decide (0 < servers.length)
  · rw [if_pos hc]
    cases hh : servers.head? with
    | none => rfl
    | some e0 => exact keysOf_promote servers e0.1
  · rw [if_neg hc]

theorem activeCount_repairActive_le (servers : Servers)
    (hn : (keysOf servers).Nodup) (h : activeCount servers ≤ 1) :
    activeCount (repairActive servers) ≤ 1 := by
  unfold repairActive
  by_cases hc : (!servers.any fun e => isActive e.2) && decide (0 < servers.length)
  · rw [if_pos hc]
    cases hh : servers.head? with
    | none => exact h
    | some e0 =>
      have hfalse : (servers.any fun e => isActive e.2) = false := by
        rw [Bool.and_eq_true] at hc
        simpa using hc.1
      have hall : ∀ e ∈ servers, isActive e.2 = false := by
        intro e he
        simpa using List.any_eq_false.mp hfalse e he
      rw [activeCount_promote servers e0.1 hall]
      exact countP_key_le_one servers e0.1 hn
  · rw [if_neg hc]
    exact h

theorem eraseServer_keys_nodup (servers : Servers) (a : String)
    (h : (keysOf servers).Nodup) : (keysOf (eraseServer servers a)).Nodup := by
  have hsub : (eraseServer servers a).Sublist servers := List.filter_sublist servers
  exact List.Nodup.sublist (hsub.map _) h

theorem invariant_applyOp (s : ConfigState) (op : RegOp)
    (h1 : (keysOf s.servers).Nodup) (h2 : activeCount s.servers ≤ 1) :
    (keysOf (applyOp s op).servers).Nodup ∧ activeCount (applyOp s op).servers ≤ 1 := by
  cases op with
  | switch a =>
    simp only [applyOp]
    cases hl : lookupServer s.servers a with
    | none => simp only [switch_server, hl]; exact ⟨h1, h2⟩
    | some p =>
      refine ⟨by rw [switch_keysOf]; exact h1, ?_⟩
      rw [switch_activeCount s a p hl]
      exact countP_key_le_one s.servers a h1
  | add a url token =>
    simp only [applyOp, add_server]
    have hn : (keysOf (setServer s.servers a (__create_server_config url token))).Nodup :=
      keysOf_setServer_nodup s.servers a _ h1
    cases hl : lookupServer (setServer s.servers a (__create_server_config url token)) a with
    | none =>
      have := (lookupServer_eq_none_iff _ a).mp hl
      rw [hasKey_setServer] at this
      cases this
    | some p =>
      refine ⟨by rw [switch_keysOf]; exact hn, ?_⟩
      rw [switch_activeCount _ a p hl]
      exact countP_key_le_one _ a hn
  | remove a =>
    simp only [applyOp]
    cases hl : lookupServer s.servers a with
    | none => simp only [remove_server, hl]; exact ⟨h1, h2⟩
    | some p =>
      simp only [remove_server, hl]
      have hn1 := eraseServer_keys_nodup s.servers a h1
      have hle : activeCount (eraseServer s.servers a) ≤ 1 := by
        unfold activeCount
        exact le_trans (List.Sublist.countP_le _ (List.filter_sublist s.servers)) h2
      exact ⟨by rw [keysOf_repairActive]; exact hn1,
        activeCount_repairActive_le _ hn1 hle⟩

theorem repairActive_promotes (e0 : String × Profile) (rest : Servers)
    (hall : ∀ e ∈ e0 :: rest, isActive e.2 = false)
    (hn : (keysOf (e0 :: rest)).Nodup) :
    repairActive (e0 :: rest) = (e0.1, { e0.2 with active := some true }) :: rest := by
  unfold repairActive
  have hany : ((e0 :: rest).any fun e => isActive e.2) = false :=
    List.any_eq_false.mpr (fun e he => by simp [hall e he])
  rw [hany]
  have hcond : (!false && decide (0 < (e0 :: rest).length)) = true := by simp
  rw [if_pos hcond]
  simp only [List.head?_cons]
  rw [List.map_cons]
  have hhd : (if e0.1 == e0.1 then (e0.1, { e0.2 with active := some true }) else e0) =
      (e0.1, { e0.2 with active := some true }) := by simp
  rw [hhd]
  have htl : rest.map
      (fun e => if e.1 == e0.1 then (e.1, { e.2 with active := some true }) else e) = rest := by
    have : rest.map
        (fun e => if e.1 == e0.1 then (e.1, { e.2 with active := some true }) else e) =
        rest.map (fun e => e) := by
      apply List.map_congr_left
      intro e he
      have hne : e.1 ≠ e0.1 := by
        intro hcontra
        simp only [keysOf, List.map_cons, List.nodup_cons] at hn
        exact hn.1 (hcontra ▸ List.mem_map.mpr ⟨e, he, rfl⟩)
      simp [hne]
    rw [this, List.map_id']
  rw [htl]

/-- C1: every registry state reachable from the empty registry by a finite
sequence of add, switch and remove operations has at most one profile with a
truthy `active` flag. -/
theorem claim_C1 (s : ConfigState) (h : Reachable s) : activeCount s.servers ≤ 1 := by
  obtain ⟨ops, rfl⟩ := h
  suffices hgen : ∀ (ops : List RegOp) (t : ConfigState),
      (keysOf t.servers).Nodup → activeCount t.servers ≤ 1 →
      (keysOf (ops.foldl applyOp t).servers).Nodup ∧
        activeCount (ops.foldl applyOp t).servers ≤ 1 by
    exact (hgen ops initialState (by simp [initialState, keysOf]) (by simp [initialState, activeCount])).2
  intro ops
  induction ops with
  | nil => intro t h1 h2; exact ⟨h1, h2⟩
  | cons op rest ih =>
    intro t h1 h2
    rw [List.foldl_cons]
    obtain ⟨h1', h2'⟩ := invariant_applyOp t op h1 h2
    exact ih (applyOp t op) h1' h2'

/-- Witness for C1: a concrete operation sequence that adds two profiles,
switches, and removes the active one. -/
theorem claim_C1_witness :
    activeCount (applyOps [RegOp.add "b" "https://b" none, RegOp.add "a" "https://a" (some "t"),
      RegOp.switch "b", RegOp.remove "b"]).servers ≤ 1 :=
  claim_C1 _ ⟨[RegOp.add "b" "https://b" none, RegOp.add "a" "https://a" (some "t"),
      RegOp.switch "b", RegOp.remove "b"], rfl⟩

/-- C2: removing the unique active profile when at least one other profile
remains leaves exactly one profile active, namely the first remaining
profile in the registry's key order. -/
theorem claim_C2 (s : ConfigState) (a : String) (p : Profile)
    (hnodup : (keysOf s.servers).Nodup)
    (hlook : lookupServer s.servers a = some p)
    (hact : isActive p = true)
    (huniq : ∀ e ∈ s.servers, isActive e.2 = true → e.1 = a)
    (hrem : eraseServer s.servers a ≠ []) :
    activeCount (remove_server s a).servers = 1 ∧
    (remove_server s a).servers.find? (fun e => isActive e.2) =
      (remove_server s a).servers.head? ∧
    keysOf (remove_server s a).servers = keysOf (eraseServer s.servers a) := by
  simp only [remove_server, hlook]
  obtain ⟨e0, rest, ht⟩ : ∃ e0 rest, eraseServer s.servers a = e0 :: rest := by
    cases h : eraseServer s.servers a with
    | nil => exact absurd h hrem
    | cons e0 rest => exact ⟨e0, rest, rfl⟩
  have hall : ∀ e ∈ e0 :: rest, isActive e.2 = false := by
    intro e he
    rw [← ht] at he
    rcases List.mem_filter.mp he with ⟨hmem, hne⟩
    by_cases hia : isActive e.2 = true
    · exact absurd (huniq e hmem hia) (by simpa using hne)
    · exact Bool.not_eq_true _ ▸ hia
  have hnerased : (keysOf (e0 :: rest)).Nodup := by
    rw [← ht]
    exact eraseServer_keys_nodup s.servers a hnodup
  rw [ht, repairActive_promotes e0 rest hall hnerased]
  have hz : rest.countP (fun e => isActive e.2) = 0 :=
    List.countP_eq_zero.mpr (fun e he => by simp [hall e (List.mem_cons_of_mem _ he)])
  refine ⟨?_, ?_, ?_⟩
  · unfold activeCount
    rw [List.countP_cons, hz]
    simp [isActive]
  · rw [List.find?_cons_of_pos _ (by simp [isActive]), List.head?_cons]
  · simp [keysOf]

/-- Witness for C2: a three-profile registry whose active profile `a` was
inserted last; removing it promotes the first remaining key `c`, not the
alphabetically least key `b`. -/
theorem claim_C2_witness :
    activeCount (remove_server
      { servers := [("c", { url := "uc", token := none, active := some false }),
                    ("b", { url := "ub", token := none, active := none }),
                    ("a", { url := "ua", token := none, active := some true })],
        is_changed := false } "a").servers = 1 ∧
    (remove_server
      { servers := [("c", { url := "uc", token := none, active := some false }),
                    ("b", { url := "ub", token := none, active := none }),
                    ("a", { url := "ua", token := none, active := some true })],
        is_changed := false } "a").servers.find? (fun e => isActive e.2) =
      (remove_server
      { servers := [("c", { url := "uc", token := none, active := some false }),
                    ("b", { url := "ub", token := none, active := none }),
                    ("a", { url := "ua", token := none, active := some true })],
        is_changed := false } "a").servers.head? ∧
    keysOf (remove_server
      { servers := [("c", { url := "uc", token := none, active := some false }),
                    ("b", { url := "ub", token := none, active := none }),
                    ("a", { url := "ua", token := none, active := some true })],
        is_changed := false } "a").servers =
      keysOf (eraseServer
        [("c", { url := "uc", token := none, active := some false }),
         ("b", { url := "ub", token := none, active := none }),
         ("a", { url := "ua", token := none, active := some true })] "a") :=
  claim_C2 _ "a" { url := "ua", token := none, active := some true }
    (by decide) (by decide) (by decide) (by decide) (by decide)

/-- C4 counterexample: on a registry with one profile and no profile marked
active, `active_server` already returns the environment fallback, although
profiles exist — the claim allows the fallback only when none exist. -/
theorem claim_C4_counterexample :
    active_server
      { servers := [("a", { url := "u", token := none, active := none })], is_changed := false }
      (fun v => some v) =
      Resolved.fallback (some "PIPELINEUTIL_URL") (some "PIPELINEUTIL_TOKEN") ∧
    ({ servers := [("a", { url := "u", token := none, active := none })],
       is_changed := false } : ConfigState).servers ≠ [] := by
  exact ⟨rfl, by decide⟩

/-- C4 (amended): `active_server` returns the profile marked active when one
exists (stated for a unique active profile), and returns the two environment
variables' values exactly when no profile is marked active — whether or not
profiles exist. -/
theorem claim_C4 (s : ConfigState) (env : String → Option String) :
    (active_server s env = __active_fallback env ↔ ∀ e ∈ s.servers, isActive e.2 = false) ∧
    (∀ k p, (k, p) ∈ s.servers → isActive p = true →
      (∀ e ∈ s.servers, isActive e.2 = true → e = (k, p)) →
      active_server s env = Resolved.profile p) := by
  constructor
  · constructor
    · intro h e he
      cases hf : s.servers.find? (fun e => isActive e.2) with
      | some e' => simp [active_server, hf, __active_fallback] at h
      | none => simpa using List.find?_eq_none.mp hf e he
    · intro hall
      have hf : s.servers.find? (fun e => isActive e.2) = none :=
        List.find?_eq_none.mpr (fun e he => by simp [hall e he])
      simp [active_server, hf]
  · intro k p hmem hp huniq
    cases hf : s.servers.find? (fun e => isActive e.2) with
    | none => exact absurd hp (by simpa using List.find?_eq_none.mp hf (k, p) hmem)
    | some e' =>
      have ha := List.find?_some hf
      have he' : e' = (k, p) := huniq e' (List.mem_of_find?_eq_some hf) ha
      simp [active_server, hf, he']

/-- Witness for C4: the fallback case on an all-inactive one-profile
registry, and the active case on a one-profile registry whose profile is
active. -/
theorem claim_C4_witness :
    active_server
      { servers := [("a", { url := "u", token := none, active := some false })],
        is_changed := false } (fun v => some v) = __active_fallback (fun v => some v) ∧
    active_server
      { servers := [("a", { url := "u", token := some "t", active := some true })],
        is_changed := false } (fun v => some v) =
      Resolved.profile { url := "u", token := some "t", active := some true } :=
  ⟨(claim_C4 _ _).1.mpr (by decide),
   (claim_C4 _ _).2 "a" { url := "u", token := some "t", active := some true }
     (by decide) (by decide) (by decide)⟩

/-- C5: a failing pipeline listing is caught, the failing project yields the
empty pipeline list, and the traversal of the surrounding projects is
unaffected. -/
theorem claim_C5 (config : RunConfig) (pre post : List Project) (proj : Project) (err : String)
    (h : proj.pipelines = Except.error err) :
    retrieve_pipelines proj config = [] ∧
    mainPipelines config (pre ++ proj :: post) =
      mainPipelines config pre ++
        (proj.name_with_namespace, ([] : List Pipeline)) :: mainPipelines config post := by
  have h0 : retrieve_pipelines proj config = [] := by simp [retrieve_pipelines, h]
  refine ⟨h0, ?_⟩
  induction pre with
  | nil => simp [mainPipelines, h0]
  | cons q rest ih => simp [mainPipelines, ih]

/-- Witness for C5: a denied project between two accessible ones. -/
theorem claim_C5_witness :
    retrieve_pipelines { name_with_namespace := "f", pipelines := Except.error "403 forbidden" }
      { url := none, token := none, filter_project := none, filter_pipelines := none,
        limit_projects := 3, limit_pipelines := 5, limit_pipelines_depth := 50,
        failed_show_link := false, failed_hide_jobs_all := true, failed_hide_jobs_okay := true }
      = [] ∧
    mainPipelines
      { url := none, token := none, filter_project := none, filter_pipelines := none,
        limit_projects := 3, limit_pipelines := 5, limit_pipelines_depth := 50,
        failed_show_link := false, failed_hide_jobs_all := true, failed_hide_jobs_okay := true }
      ([{ name_with_namespace := "a", pipelines := Except.ok [some { ref := "main" }] }] ++
        { name_with_namespace := "f", pipelines := Except.error "403 forbidden" } ::
        [{ name_with_namespace := "b", pipelines := Except.ok [] }]) =
      mainPipelines
        { url := none, token := none, filter_project := none, filter_pipelines := none,
          limit_projects := 3, limit_pipelines := 5, limit_pipelines_depth := 50,
          failed_show_link := false, failed_hide_jobs_all := true, failed_hide_jobs_okay := true }
        [{ name_with_namespace := "a", pipelines := Except.ok [some { ref := "main" }] }] ++
        ("f", ([] : List Pipeline)) ::
        mainPipelines
          { url := none, token := none, filter_project := none, filter_pipelines := none,
            limit_projects := 3, limit_pipelines := 5, limit_pipelines_depth := 50,
            failed_show_link := false, failed_hide_jobs_all := true, failed_hide_jobs_okay := true }
          [{ name_with_namespace := "b", pipelines := Except.ok [] }] :=
  claim_C5 _ _ _ _ "403 forbidden" rfl

/-- C6: switch and remove with an unknown alias leave the state unchanged,
do not set the dirty flag, and the store file is not rewritten at the end of
the invocation. -/
theorem claim_C6 (s : ConfigState) (a : String)
    (h : lookupServer s.servers a = none) (hclean : s.is_changed = false) :
    switch_server s a = s ∧ remove_server s a = s ∧
    update (switch_server s a) = none ∧ update (remove_server s a) = none := by
  have h1 : switch_server s a = s := by simp only [switch_server, h]
  have h2 : remove_server s a = s := by simp only [remove_server, h]
  refine ⟨h1, h2, ?_, ?_⟩ <;> simp [h1, h2, update, hclean]

/-- Witness for C6: an unknown alias against a one-profile registry. -/
theorem claim_C6_witness :
    switch_server
      { servers := [("x", { url := "u", token := none, active := some true })],
        is_changed := false } "y" =
      { servers := [("x", { url := "u", token := none, active := some true })],
        is_changed := false } ∧
    remove_server
      { servers := [("x", { url := "u", token := none, active := some true })],
        is_changed := false } "y" =
      { servers := [("x", { url := "u", token := none, active := some true })],
        is_changed := false } ∧
    update (switch_server
      { servers := [("x", { url := "u", token := none, active := some true })],
        is_changed := false } "y") = none ∧
    update (remove_server
      { servers := [("x", { url := "u", token := none, active := some true })],
        is_changed := false } "y") = none :=
  claim_C6 _ "y" (by decide) rfl

/-- C9: adding with an empty-string token stores the same profile record as
adding with no token: no token field, the no-token marker in the listing,
and a `None` token after resolution. -/
theorem claim_C9 (a url : String) (args : RunArgs) (env : String → Option String) :
    __create_server_config url (some "") = __create_server_config url none ∧
    (__create_server_config url (some "")).token = none ∧
    displayToken (__create_server_config url (some "")) = "<no token>" ∧
    (convert (active_server (add_server initialState a url (some "")) env) args).token = none := by
  have hstate : add_server initialState a url (some "") =
      { servers := [(a, { url := url, token := none, active := some true })],
        is_changed := true } := by
    simp [add_server, initialState, setServer, hasKey, switch_server, lookupServer,
      __create_server_config]
  refine ⟨by simp [__create_server_config], by simp [__create_server_config],
    by simp [displayToken, __create_server_config], ?_⟩
  rw [hstate]
  simp [active_server, convert, Resolved.token, isActive]
  split <;> rfl

/-- C10: listing an empty registry returns normally with no profile lines;
the column-width computation itself is undefined on the empty registry and
is made unreachable by the guard. -/
theorem claim_C10 : list_servers [] = some [] ∧ listBody [] = none :=
  ⟨rfl, rfl⟩

theorem pipelineScan_take_depth (filt : Option String) (limit : Nat)
    (d cnt : Nat) (seq : List (Option Pipeline)) :
    pipelineScan filt limit d cnt seq = pipelineScan filt limit d cnt (seq.take d) := by
  induction seq generalizing d cnt with
  | nil => simp
  | cons q rest ih =>
    cases d with
    | zero => simp [pipelineScan]
    | succ d =>
      cases q with
      | none => simp [pipelineScan]
      | some p =>
        simp only [List.take_succ_cons, pipelineScan]
        split_ifs <;> simp [ih]

theorem pipelineScan_eq_take (filt : Option String) (limit : Nat)
    (d cnt : Nat) (seq : List (Option Pipeline)) (hcnt : cnt < limit) :
    pipelineScan filt limit d cnt seq =
      ((scannedEntries d seq).filter (fun p => matchesFilter filt p.ref)).take (limit - cnt) := by
  induction seq generalizing d cnt with
  | nil => simp [pipelineScan, scannedEntries]
  | cons q rest ih =>
    cases d with
    | zero => simp [pipelineScan, scannedEntries]
    | succ d =>
      cases q with
      | none => simp [pipelineScan, scannedEntries]
      | some p =>
        simp only [pipelineScan, scannedEntries]
        by_cases hm : matchesFilter filt p.ref
        · rw [if_pos hm]
          simp only [List.filter_cons, hm, if_pos]
          by_cases hlim : limit ≤ cnt + 1
          · rw [if_pos hlim]
            have h1 : limit - cnt = 1 := by omega
            rw [h1]
            simp
          · rw [if_neg hlim]
            rw [ih d (cnt + 1) (by omega)]
            have h1 : limit - cnt = (limit - (cnt + 1)) + 1 := by omega
            rw [h1, List.take_succ_cons]
        · rw [if_neg hm]
          rw [if_neg (by omega : ¬ limit ≤ cnt)]
          simp only [List.filter_cons, hm]
          simpa using ih d cnt hcnt

/-- C7 counterexample: with `limit_pipelines = 0` the scan still returns the
first matching pipeline, because the loop appends before it tests
`len(found) >= limit_pipelines` — so the result is not of length at most 0. -/
theorem claim_C7_counterexample :
    retrieve_pipelines
      { name_with_namespace := "x", pipelines := Except.ok [some { ref := "main" }] }
      { url := none, token := none, filter_project := none, filter_pipelines := none,
        limit_projects := 3, limit_pipelines := 0, limit_pipelines_depth := 50,
        failed_show_link := false, failed_hide_jobs_all := true, failed_hide_jobs_okay := true } =
      [{ ref := "main" }] ∧
    ¬ (retrieve_pipelines
      { name_with_namespace := "x", pipelines := Except.ok [some { ref := "main" }] }
      { url := none, token := none, filter_project := none, filter_pipelines := none,
        limit_projects := 3, limit_pipelines := 0, limit_pipelines_depth := 50,
        failed_show_link := false, failed_hide_jobs_all := true,
        failed_hide_jobs_okay := true }).length ≤ 0 := by
  exact ⟨rfl, by decide⟩

/-- C7 (amended): for `limit_pipelines = m ≥ 1` the scan returns at most `m`
accepted pipelines, and exactly the first `m` accepted among the entries it
can scan — so it stops as soon as `m` accepted results are collected.  For
`m = 0` the loop still returns the first scanned entry if it matches,
because the bound is only tested after an append. -/
theorem claim_C7 (config : RunConfig) (proj : Project) (seq : List (Option Pipeline))
    (hok : proj.pipelines = Except.ok seq) (hm : 1 ≤ config.limit_pipelines) :
    (retrieve_pipelines proj config).length ≤ config.limit_pipelines ∧
    retrieve_pipelines proj config =
      ((scannedEntries config.limit_pipelines_depth seq).filter
        (fun p => matchesFilter config.filter_pipelines p.ref)).take config.limit_pipelines := by
  have heq : retrieve_pipelines proj config =
      ((scannedEntries config.limit_pipelines_depth seq).filter
        (fun p => matchesFilter config.filter_pipelines p.ref)).take config.limit_pipelines := by
    simp only [retrieve_pipelines, hok]
    rw [pipelineScan_eq_take _ _ _ 0 _ (by omega), Nat.sub_zero]
  refine ⟨?_, heq⟩
  rw [heq, List.length_take]
  exact min_le_left _ _

/-- Witness for C7: three matching entries, `limit_pipelines = 1`; only the
first is returned. -/
theorem claim_C7_witness :
    (retrieve_pipelines
      { name_with_namespace := "x",
        pipelines := Except.ok [some { ref := "main" }, some { ref := "dev" }] }
      { url := none, token := none, filter_project := none, filter_pipelines := none,
        limit_projects := 3, limit_pipelines := 1, limit_pipelines_depth := 50,
        failed_show_link := false, failed_hide_jobs_all := true,
        failed_hide_jobs_okay := true }).length ≤ 1 ∧
    retrieve_pipelines
      { name_with_namespace := "x",
        pipelines := Except.ok [some { ref := "main" }, some { ref := "dev" }] }
      { url := none, token := none, filter_project := none, filter_pipelines := none,
        limit_projects := 3, limit_pipelines := 1, limit_pipelines_depth := 50,
        failed_show_link := false, failed_hide_jobs_all := true,
        failed_hide_jobs_okay := true } =
      ((scannedEntries 50 [some { ref := "main" }, some { ref := "dev" }]).filter
        (fun p => matchesFilter none p.ref)).take 1 :=
  claim_C7 _ _ [some { ref := "main" }, some { ref := "dev" }] rfl (by decide)

/-- C8: the scan never examines more than `limit_pipelines_depth` entries of
the remote sequence — the result over any sequence equals the result over
its truncation to the first `limit_pipelines_depth` entries, for every
filter and every `limit_pipelines`. -/
theorem claim_C8 (config : RunConfig) (proj : Project) :
    retrieve_pipelines proj config =
      retrieve_pipelines
        { proj with
          pipelines := Except.map (List.take config.limit_pipelines_depth) proj.pipelines }
        config := by
  cases hp : proj.pipelines with
  | error e => simp [retrieve_pipelines, hp, Except.map]
  | ok seq =>
    simp only [retrieve_pipelines, hp, Except.map]
    exact pipelineScan_take_depth _ _ _ 0 seq

/-- C3 counterexample: with two remote projects in descending name order and
`limit_projects = 1`, the code returns the first project of the remote
sequence (sorted), not the alphabetically first project of the whole remote
output. -/
theorem claim_C3_counterexample :
    retrieve_projects
      [{ name_with_namespace := "z", pipelines := Except.ok [] },
       { name_with_namespace := "a", pipelines := Except.ok [] }]
      { url := none, token := none, filter_project := none, filter_pipelines := none,
        limit_projects := 1, limit_pipelines := 5, limit_pipelines_depth := 50,
        failed_show_link := false, failed_hide_jobs_all := true, failed_hide_jobs_okay := true } =
      [{ name_with_namespace := "z", pipelines := Except.ok [] }] ∧
    specProjectDiscovery
      [{ name_with_namespace := "z", pipelines := Except.ok [] },
       { name_with_namespace := "a", pipelines := Except.ok [] }] 1 =
      [{ name_with_namespace := "a", pipelines := Except.ok [] }] ∧
    retrieve_projects
      [{ name_with_namespace := "z", pipelines := Except.ok [] },
       { name_with_namespace := "a", pipelines := Except.ok [] }]
      { url := none, token := none, filter_project := none, filter_pipelines := none,
        limit_projects := 1, limit_pipelines := 5, limit_pipelines_depth := 50,
        failed_show_link := false, failed_hide_jobs_all := true, failed_hide_jobs_okay := true } ≠
    specProjectDiscovery
      [{ name_with_namespace := "z", pipelines := Except.ok [] },
       { name_with_namespace := "a", pipelines := Except.ok [] }] 1 := by
  refine ⟨?_, ?_, ?_⟩ <;> decide

/-- C3 (amended): project discovery takes the first `limit_projects`
projects of the remote sequence in remote order (all of them if fewer
exist), and returns exactly that set sorted ascending by namespaced name:
the result has length at most the bound, is a permutation of the taken
set, and is sorted. -/
theorem claim_C3 (remote : List Project) (config : RunConfig) :
    (retrieve_projects remote config).length ≤ config.limit_projects ∧
    (retrieve_projects remote config).Perm (remote.take config.limit_projects) ∧
    List.Sorted projectLE (retrieve_projects remote config) := by
  refine ⟨?_, ?_, ?_⟩
  · unfold retrieve_projects
    rw [List.length_insertionSort, List.length_take]
    exact min_le_left _ _
  · exact List.perm_insertionSort _ _
  · exact List.sorted_insertionSort _ _

end PipelineUtil
